import Mathlib

/-!
Verification of the training-VM toolkit (`uvm`): a shallow embedding in Lean 4
of `src/uvm/spec.py` (instruction schema, encoder, decoder) and
`src/uvm/interpreter.py` (memory, execution engine, binary loader), together
with theorems settling the specification's claims about them.

Conventions of the embedding:
* Python `int` values that may be negative are modelled as `Int`; raw
  instruction words and bit masks, which are always non-negative, as `Nat`.
* Python dictionaries keyed by strings are modelled as association lists
  (`List (String × _)`), with `List.lookup` playing the role of `d[k]`
  (a failed lookup models a `KeyError`).
* Python exceptions are modelled with `Except`: each distinct `raise` site
  gets its own constructor carrying the data interpolated into the message.
* Python's `str.upper()` is modelled by `asciiUpper` (ASCII case mapping,
  which is exact for every string the program manipulates).
-/

namespace UVM

/-- Models Python `str.upper` on a single ASCII character. -/
def upperChar (c : Char) : Char :=
  if 'a' ≤ c ∧ c ≤ 'z' then Char.ofNat (c.toNat - 32) else c

/-- Models Python `str.upper` (exact for ASCII strings). -/
def asciiUpper (s : String) : String :=
  ⟨s.data.map upperChar⟩

/-! ## Constants from `src/uvm/spec.py` -/

def INSTRUCTION_BITS : Nat := 112
def INSTRUCTION_BYTES : Nat := 14
def OPCODE_BITS : Nat := 5
def WORD_SIZE : Nat := 64
def WORD_MASK : Nat := (1 <<< WORD_SIZE) - 1

/-! ## Field and instruction definitions (`src/uvm/spec.py`) -/

/-- Bit layout definition for an instruction field (`FieldDefinition`). -/
structure FieldDefinition where
  name : String
  start_bit : Nat
  end_bit : Nat
deriving DecidableEq, Repr

def FieldDefinition.width (f : FieldDefinition) : Nat :=
  f.end_bit - f.start_bit + 1

def FieldDefinition.mask (f : FieldDefinition) : Nat :=
  (1 <<< f.width) - 1

/-- Metadata about a single VM instruction (`InstructionDefinition`). -/
structure InstructionDefinition where
  mnemonic : String
  opcode : Nat
  fields : List FieldDefinition
deriving DecidableEq, Repr

/-- Errors raised by `InstructionDefinition.validate_fields` and
`InstructionDefinition.encode`: the two `ValueError`s of validation
(missing fields / invalid field name), the `ValueError` of the range check,
and the `KeyError` raised by the `values[...]` lookup inside `encode`. -/
inductive EncodeError where
  | missingFields (mnemonic : String) (missing : List String)
  | invalidField (name : String) (mnemonic : String)
  | rangeError (name : String) (value : Int) (width : Nat)
  | keyError (key : String)
deriving DecidableEq, Repr

/-- `InstructionDefinition.validate_fields`: returns the error the Python
method would raise, or `none` when validation passes. -/
def InstructionDefinition.validate_fields (d : InstructionDefinition)
    (values : List (String × Int)) : Option EncodeError :=
  let required := d.fields.map (·.name)
  let missing := required.filter
    (fun r => !(values.any (fun kv => asciiUpper kv.1 == r)))
  if !missing.isEmpty then
    some (.missingFields d.mnemonic missing)
  else
    match values.find? (fun kv => !(required.contains (asciiUpper kv.1))) with
    | some kv => some (.invalidField kv.1 d.mnemonic)
    | none => none

/-- The per-field loop body of `InstructionDefinition.encode`: looks each
field's (upper-cased) name up in `values`, checks the range, and ors the
value into the accumulated word. -/
def encodeFields (values : List (String × Int)) :
    List FieldDefinition → Nat → Except EncodeError Nat
  | [], acc => .ok acc
  | f :: rest, acc =>
    match values.lookup (asciiUpper f.name) with
    | none => .error (.keyError (asciiUpper f.name))
    | some raw_value =>
      if raw_value < 0 ∨ (f.mask : Int) < raw_value then
        .error (.rangeError f.name raw_value f.width)
      else
        encodeFields values rest (acc ||| raw_value.toNat <<< f.start_bit)

/-- `InstructionDefinition.encode`: encode field values into a 112-bit
instruction word. -/
def InstructionDefinition.encode (d : InstructionDefinition)
    (values : List (String × Int)) : Except EncodeError Nat :=
  match d.validate_fields values with
  | some e => .error e
  | none => encodeFields values d.fields (d.opcode &&& ((1 <<< OPCODE_BITS) - 1))

/-- `InstructionDefinition.extract_fields`: extract field values from a raw
instruction word (total, in declaration order, like the Python dict built in
field order). -/
def InstructionDefinition.extract_fields (d : InstructionDefinition)
    (encoded : Nat) : List (String × Int) :=
  d.fields.map (fun f => (f.name, ((encoded >>> f.start_bit) &&& f.mask : Nat) ))

/-- `InstructionIR`: assembler intermediate representation. -/
structure InstructionIR where
  mnemonic : String
  fields : List (String × Int)
deriving DecidableEq, Repr

/-- `MachineInstruction`: decoded instruction ready for execution. -/
structure MachineInstruction where
  definition : InstructionDefinition
  fields : List (String × Int)
  raw_value : Nat
deriving DecidableEq, Repr

def FIELD_B_SHORT : FieldDefinition := ⟨"B", 5, 21⟩
def FIELD_C_LONG : FieldDefinition := ⟨"C", 22, 50⟩
def FIELD_B_LONG : FieldDefinition := ⟨"B", 5, 33⟩
def FIELD_C_SHORT : FieldDefinition := ⟨"C", 34, 48⟩
def FIELD_D_LONG : FieldDefinition := ⟨"D", 49, 77⟩
def FIELD_C_MEDIUM : FieldDefinition := ⟨"C", 34, 62⟩

def LOAD_CONST_DEF : InstructionDefinition :=
  ⟨"LOAD_CONST", 17, [FIELD_B_SHORT, FIELD_C_LONG]⟩

def READ_MEM_DEF : InstructionDefinition :=
  ⟨"READ_MEM", 16, [FIELD_B_LONG, FIELD_C_SHORT, FIELD_D_LONG]⟩

def WRITE_MEM_DEF : InstructionDefinition :=
  ⟨"WRITE_MEM", 23, [FIELD_B_LONG, FIELD_C_MEDIUM]⟩

def NOT_MEM_DEF : InstructionDefinition :=
  ⟨"NOT_MEM", 24, [FIELD_B_LONG, FIELD_C_SHORT, FIELD_D_LONG]⟩

/-- `INSTRUCTION_SET`: the fixed mnemonic-to-definition dictionary. -/
def INSTRUCTION_SET : List (String × InstructionDefinition) :=
  [("LOAD_CONST", LOAD_CONST_DEF),
   ("READ_MEM", READ_MEM_DEF),
   ("WRITE_MEM", WRITE_MEM_DEF),
   ("NOT_MEM", NOT_MEM_DEF)]

/-- `INSTRUCTION_BY_OPCODE`: the opcode-to-definition dictionary, built by
comprehension over the values of `INSTRUCTION_SET`. -/
def INSTRUCTION_BY_OPCODE : List (Nat × InstructionDefinition) :=
  INSTRUCTION_SET.map (fun kv => (kv.2.opcode, kv.2))

/-- The `ValueError` raised by `decode_word` for an unrecognised opcode. -/
inductive DecodeError where
  | unknownOpcode (opcode : Nat)
deriving DecidableEq, Repr

/-- `decode_word`: turn a raw 112-bit word into a machine instruction. -/
def decode_word (word : Nat) : Except DecodeError MachineInstruction :=
  let opcode := word &&& ((1 <<< OPCODE_BITS) - 1)
  match (INSTRUCTION_BY_OPCODE.lookup opcode) with
  | none => .error (.unknownOpcode opcode)
  | some definition =>
    .ok ⟨definition, definition.extract_fields word, word⟩

/-- Errors propagated out of `encode_words`: the `ValueError` for an unknown
mnemonic, or any error raised by `InstructionDefinition.encode`. -/
inductive AsmError where
  | unknownMnemonic (mnemonic : String)
  | encodeFailed (e : EncodeError)
deriving DecidableEq, Repr

/-- One iteration of the `encode_words` loop: case-insensitive mnemonic
lookup followed by schema-level encoding. -/
def encodeOne (ir : InstructionIR) : Except AsmError Nat :=
  match INSTRUCTION_SET.lookup (asciiUpper ir.mnemonic) with
  | none => .error (.unknownMnemonic ir.mnemonic)
  | some definition =>
    match definition.encode ir.fields with
    | .error e => .error (.encodeFailed e)
    | .ok w => .ok w

/-- `encode_words`: encode a sequence of IR instructions into machine words;
the first failing instruction's error aborts the whole encoding. -/
def encode_words : List InstructionIR → Except AsmError (List Nat)
  | [] => .ok []
  | ir :: rest =>
    match encodeOne ir with
    | .error e => .error e
    | .ok w =>
      match encode_words rest with
      | .error e => .error e
      | .ok ws => .ok (w :: ws)

/-! ## Memory and execution engine (`src/uvm/interpreter.py`) -/

/-- Errors raised at run time by the interpreter: the `ValueError`s of
`Memory.read` / `Memory.write` (negative address) and `Memory.dump` (bad
range), the `KeyError` of a `fields[...]` lookup, and the `ValueError` of
the dispatch fallthrough in `Interpreter._execute`. -/
inductive VMError where
  | invalidAddress
  | invalidRange
  | keyError (key : String)
  | unsupportedInstruction (name : String)
deriving DecidableEq, Repr

/-- `Memory`: sparse dictionary of cells, modelled as a total function that
is zero wherever the Python dict has no entry (matching
`self._cells.get(address, 0)`). -/
structure Memory where
  cells : Int → Int

/-- A fresh `Memory()`. -/
def Memory.init : Memory := ⟨fun _ => 0⟩

/-- `Memory.read`. -/
def Memory.read (m : Memory) (address : Int) : Except VMError Int :=
  if address < 0 then .error .invalidAddress
  else .ok (m.cells address)

/-- `Memory.write`: masks the value to the word width before storing. -/
def Memory.write (m : Memory) (address : Int) (value : Int) :
    Except VMError Memory :=
  if address < 0 then .error .invalidAddress
  else .ok ⟨fun a => if a = address then Int.land value (WORD_MASK : Int) else m.cells a⟩

/-- `Memory.dump`: inclusive list of `(address, value)` pairs. -/
def Memory.dump (m : Memory) (start finish : Int) :
    Except VMError (List (Int × Int)) :=
  if start < 0 ∨ finish < 0 ∨ finish < start then .error .invalidRange
  else .ok (((List.range (finish - start).toNat.succ).map
    (fun i => (start + i, m.cells (start + i)))))

/-- `ExecutionResult`. -/
structure ExecutionResult where
  steps : Nat
  halted : Bool
deriving DecidableEq, Repr

/-- A Python `fields["K"]` lookup: `KeyError` when the key is absent. -/
def lookupField (fields : List (String × Int)) (key : String) :
    Except VMError Int :=
  match fields.lookup key with
  | none => .error (.keyError key)
  | some v => .ok v

/-- `Interpreter._op_load_const`. -/
def op_load_const (memory : Memory) (fields : List (String × Int)) :
    Except VMError Memory := do
  let constant ← lookupField fields "B"
  let destination ← lookupField fields "C"
  memory.write destination constant

/-- `Interpreter._op_read_mem`. -/
def op_read_mem (memory : Memory) (fields : List (String × Int)) :
    Except VMError Memory := do
  let pointer_address ← lookupField fields "B"
  let offset ← lookupField fields "C"
  let target_address ← lookupField fields "D"
  let base ← memory.read pointer_address
  let value ← memory.read (base + offset)
  memory.write target_address value

/-- `Interpreter._op_write_mem`. -/
def op_write_mem (memory : Memory) (fields : List (String × Int)) :
    Except VMError Memory := do
  let source_address ← lookupField fields "B"
  let destination_address ← lookupField fields "C"
  let value ← memory.read source_address
  memory.write destination_address value

/-- `Interpreter._op_not_mem`. -/
def op_not_mem (memory : Memory) (fields : List (String × Int)) :
    Except VMError Memory := do
  let pointer_address ← lookupField fields "B"
  let offset ← lookupField fields "C"
  let target_address ← lookupField fields "D"
  let base ← memory.read pointer_address
  let value ← memory.read (base + offset)
  memory.write target_address (Int.land (Int.not value) (WORD_MASK : Int))

/-- `Interpreter._execute`: dispatch on the mnemonic; the instruction only
ever touches `Memory`, never the program counter. -/
def execute (memory : Memory) (instruction : MachineInstruction) :
    Except VMError Memory :=
  let name := instruction.definition.mnemonic
  if name = "LOAD_CONST" then op_load_const memory instruction.fields
  else if name = "READ_MEM" then op_read_mem memory instruction.fields
  else if name = "WRITE_MEM" then op_write_mem memory instruction.fields
  else if name = "NOT_MEM" then op_not_mem memory instruction.fields
  else .error (.unsupportedInstruction name)

/-- `Interpreter` state: program, memory, program counter, step counter. -/
structure Interpreter where
  program : List MachineInstruction
  memory : Memory
  pc : Nat
  steps : Nat

/-- `Interpreter.__init__` with a fresh memory. -/
def Interpreter.init (program : List MachineInstruction) : Interpreter :=
  ⟨program, Memory.init, 0, 0⟩

/-- The budget test `max_steps is not None and self.steps >= max_steps`. -/
def budgetReached (max_steps : Option Int) (steps : Nat) : Bool :=
  match max_steps with
  | none => false
  | some k => k ≤ (steps : Int)

/-- `Interpreter.run`: the fetch-execute loop. Terminates because each
iteration increments `pc` and leaves the program unchanged. -/
def Interpreter.run (st : Interpreter) (max_steps : Option Int) :
    Except VMError (ExecutionResult × Interpreter) :=
  if h : st.pc < st.program.length then
    if budgetReached max_steps st.steps then
      .ok (⟨st.steps, false⟩, st)
    else
      match execute st.memory st.program[st.pc] with
      | .error e => .error e
      | .ok memory =>
        Interpreter.run ⟨st.program, memory, st.pc + 1, st.steps + 1⟩ max_steps
  else
    .ok (⟨st.steps, true⟩, st)
termination_by st.program.length - st.pc
decreasing_by simp; omega

/-- Errors raised by `load_program`: the size-check `ValueError` or a
propagated `decode_word` failure. -/
inductive LoadError where
  | malformedBinary
  | unknownOpcode (opcode : Nat)
deriving DecidableEq, Repr

/-- `int.from_bytes(chunk, "little")`. -/
def fromBytesLE : List Nat → Nat
  | [] => 0
  | b :: rest => b + 256 * fromBytesLE rest

/-- The chunking loop of `load_program`, one 14-byte chunk at a time. -/
def loadChunks : List Nat → Except LoadError (List MachineInstruction)
  | [] => .ok []
  | b :: rest =>
    match decode_word (fromBytesLE ((b :: rest).take INSTRUCTION_BYTES)) with
    | .error (.unknownOpcode op) => .error (.unknownOpcode op)
    | .ok mi =>
      match loadChunks ((b :: rest).drop INSTRUCTION_BYTES) with
      | .error e => .error e
      | .ok mis => .ok (mi :: mis)
termination_by data => data.length
decreasing_by simp [INSTRUCTION_BYTES]; omega

/-- `load_program`: reject blobs whose length is not a multiple of 14, then
decode 14-byte little-endian chunks in order. -/
def load_program (data : List Nat) : Except LoadError (List MachineInstruction) :=
  if data.length % INSTRUCTION_BYTES ≠ 0 then .error .malformedBinary
  else loadChunks data

/-! ## Bit-arithmetic helper lemmas -/

/-- Oring a small accumulator with a value shifted past it is addition. -/
lemma or_shiftLeft_eq_add (a b k : Nat) (ha : a < 2 ^ k) :
    a ||| b <<< k = a + b * 2 ^ k := by
  have h : a ||| b <<< k = 2 ^ k * b + a := by
    apply Nat.eq_of_testBit_eq
    intro i
    rw [Nat.testBit_or, Nat.testBit_shiftLeft, Nat.testBit_mul_pow_two_add _ ha]
    by_cases hik : i < k
    · simp [hik, Nat.not_le.2 hik]
    · have hfalse : a.testBit i = false :=
        Nat.testBit_lt_two_pow
          (lt_of_lt_of_le ha (Nat.pow_le_pow_right (by norm_num) (Nat.le_of_not_lt hik)))
      simp [hik, hfalse, Nat.le_of_not_lt hik]
  rw [h]; ring

/-- Extracting a bit-field out of a word assembled from a low part, the
field's value and a high part recovers the value. -/
lemma extract_of_add (pre y post s w : Nat) (hpre : pre < 2 ^ s) (hy : y < 2 ^ w) :
    ((pre + y * 2 ^ s + post * 2 ^ (s + w)) >>> s) &&& (2 ^ w - 1) = y := by
  rw [Nat.shiftRight_eq_div_pow, Nat.and_pow_two_sub_one_eq_mod]
  have h1 : pre + y * 2 ^ s + post * 2 ^ (s + w) = pre + (y + post * 2 ^ w) * 2 ^ s := by
    rw [pow_add]; ring
  rw [h1, Nat.add_mul_div_right _ _ (Nat.pos_pow_of_pos s (by norm_num)),
    Nat.div_eq_of_lt hpre, Nat.zero_add, Nat.add_mul_mod_self_right,
    Nat.mod_eq_of_lt hy]

/-! ## Reduction lemmas for `encode` at each concrete instruction -/

/-- The in-range predicate of a single `(name, value)` binding against its
field: right key, value within `0 ≤ v ≤ mask`. -/
@[reducible] def inRangePair (f : FieldDefinition) (kv : String × Int) : Prop :=
  kv.1 = f.name ∧ 0 ≤ kv.2 ∧ kv.2 ≤ (f.mask : Int)

instance (f : FieldDefinition) (kv : String × Int) : Decidable (inRangePair f kv) := by
  unfold inRangePair; infer_instance

/-- Inversion of an in-range assignment against a non-empty field list. -/
lemma forall2_cons_inv {f : FieldDefinition} {fs : List FieldDefinition}
    {values : List (String × Int)}
    (h : List.Forall₂ inRangePair (f :: fs) values) :
    ∃ v rest, values = (f.name, v) :: rest ∧ 0 ≤ v ∧ v ≤ (f.mask : Int) ∧
      List.Forall₂ inRangePair fs rest := by
  cases h with
  | cons h1 h2 =>
    rename_i kv rest
    obtain ⟨hk, h0, h1'⟩ := h1
    refine ⟨kv.2, rest, ?_, h0, h1', h2⟩
    rw [show (f.name, kv.2) = kv from by rw [← hk]]

/-- `encode` on `LOAD_CONST`, reduced to its range checks. -/
lemma encodeRed_LOAD_CONST (b c : Int) :
    LOAD_CONST_DEF.encode [("B", b), ("C", c)] =
      (if b < 0 ∨ (131071 : Int) < b then .error (.rangeError "B" b 17)
       else if c < 0 ∨ (536870911 : Int) < c then .error (.rangeError "C" c 29)
       else .ok (17 ||| b.toNat <<< 5 ||| c.toNat <<< 22)) := rfl

/-- `encode` on `READ_MEM`, reduced to its range checks. -/
lemma encodeRed_READ_MEM (b c d : Int) :
    READ_MEM_DEF.encode [("B", b), ("C", c), ("D", d)] =
      (if b < 0 ∨ (536870911 : Int) < b then .error (.rangeError "B" b 29)
       else if c < 0 ∨ (32767 : Int) < c then .error (.rangeError "C" c 15)
       else if d < 0 ∨ (536870911 : Int) < d then .error (.rangeError "D" d 29)
       else .ok (16 ||| b.toNat <<< 5 ||| c.toNat <<< 34 ||| d.toNat <<< 49)) := rfl

/-- `encode` on `WRITE_MEM`, reduced to its range checks. -/
lemma encodeRed_WRITE_MEM (b c : Int) :
    WRITE_MEM_DEF.encode [("B", b), ("C", c)] =
      (if b < 0 ∨ (536870911 : Int) < b then .error (.rangeError "B" b 29)
       else if c < 0 ∨ (536870911 : Int) < c then .error (.rangeError "C" c 29)
       else .ok (23 ||| b.toNat <<< 5 ||| c.toNat <<< 34)) := rfl

/-- `encode` on `NOT_MEM`, reduced to its range checks. -/
lemma encodeRed_NOT_MEM (b c d : Int) :
    NOT_MEM_DEF.encode [("B", b), ("C", c), ("D", d)] =
      (if b < 0 ∨ (536870911 : Int) < b then .error (.rangeError "B" b 29)
       else if c < 0 ∨ (32767 : Int) < c then .error (.rangeError "C" c 15)
       else if d < 0 ∨ (536870911 : Int) < d then .error (.rangeError "D" d 29)
       else .ok (24 ||| b.toNat <<< 5 ||| c.toNat <<< 34 ||| d.toNat <<< 49)) := rfl

lemma encode_LOAD_CONST (b c : Int) (hb0 : 0 ≤ b) (hb1 : b ≤ 131071)
    (hc0 : 0 ≤ c) (hc1 : c ≤ 536870911) :
    LOAD_CONST_DEF.encode [("B", b), ("C", c)] =
      .ok (17 + b.toNat * 32 + c.toNat * 4194304) := by
  rw [encodeRed_LOAD_CONST, if_neg (by omega), if_neg (by omega)]
  have h1 : (17 : Nat) ||| b.toNat <<< 5 = 17 + b.toNat * 32 := by
    have := or_shiftLeft_eq_add 17 b.toNat 5 (by norm_num)
    simpa using this
  have h2 : (17 + b.toNat * 32) ||| c.toNat <<< 22 = 17 + b.toNat * 32 + c.toNat * 4194304 := by
    have := or_shiftLeft_eq_add (17 + b.toNat * 32) c.toNat 22 (by norm_num; omega)
    simpa using this
  rw [h1, h2]

lemma encode_READ_MEM (b c d : Int) (hb0 : 0 ≤ b) (hb1 : b ≤ 536870911)
    (hc0 : 0 ≤ c) (hc1 : c ≤ 32767) (hd0 : 0 ≤ d) (hd1 : d ≤ 536870911) :
    READ_MEM_DEF.encode [("B", b), ("C", c), ("D", d)] =
      .ok (16 + b.toNat * 32 + c.toNat * 17179869184 + d.toNat * 562949953421312) := by
  rw [encodeRed_READ_MEM, if_neg (by omega), if_neg (by omega), if_neg (by omega)]
  have h1 : (16 : Nat) ||| b.toNat <<< 5 = 16 + b.toNat * 32 := by
    have := or_shiftLeft_eq_add 16 b.toNat 5 (by norm_num)
    simpa using this
  have h2 : (16 + b.toNat * 32) ||| c.toNat <<< 34 =
      16 + b.toNat * 32 + c.toNat * 17179869184 := by
    have := or_shiftLeft_eq_add (16 + b.toNat * 32) c.toNat 34 (by norm_num; omega)
    simpa using this
  have h3 : (16 + b.toNat * 32 + c.toNat * 17179869184) ||| d.toNat <<< 49 =
      16 + b.toNat * 32 + c.toNat * 17179869184 + d.toNat * 562949953421312 := by
    have := or_shiftLeft_eq_add (16 + b.toNat * 32 + c.toNat * 17179869184) d.toNat 49
      (by norm_num; omega)
    simpa using this
  rw [h1, h2, h3]

lemma encode_WRITE_MEM (b c : Int) (hb0 : 0 ≤ b) (hb1 : b ≤ 536870911)
    (hc0 : 0 ≤ c) (hc1 : c ≤ 536870911) :
    WRITE_MEM_DEF.encode [("B", b), ("C", c)] =
      .ok (23 + b.toNat * 32 + c.toNat * 17179869184) := by
  rw [encodeRed_WRITE_MEM, if_neg (by omega), if_neg (by omega)]
  have h1 : (23 : Nat) ||| b.toNat <<< 5 = 23 + b.toNat * 32 := by
    have := or_shiftLeft_eq_add 23 b.toNat 5 (by norm_num)
    simpa using this
  have h2 : (23 + b.toNat * 32) ||| c.toNat <<< 34 =
      23 + b.toNat * 32 + c.toNat * 17179869184 := by
    have := or_shiftLeft_eq_add (23 + b.toNat * 32) c.toNat 34 (by norm_num; omega)
    simpa using this
  rw [h1, h2]

lemma encode_NOT_MEM (b c d : Int) (hb0 : 0 ≤ b) (hb1 : b ≤ 536870911)
    (hc0 : 0 ≤ c) (hc1 : c ≤ 32767) (hd0 : 0 ≤ d) (hd1 : d ≤ 536870911) :
    NOT_MEM_DEF.encode [("B", b), ("C", c), ("D", d)] =
      .ok (24 + b.toNat * 32 + c.toNat * 17179869184 + d.toNat * 562949953421312) := by
  rw [encodeRed_NOT_MEM, if_neg (by omega), if_neg (by omega), if_neg (by omega)]
  have h1 : (24 : Nat) ||| b.toNat <<< 5 = 24 + b.toNat * 32 := by
    have := or_shiftLeft_eq_add 24 b.toNat 5 (by norm_num)
    simpa using this
  have h2 : (24 + b.toNat * 32) ||| c.toNat <<< 34 =
      24 + b.toNat * 32 + c.toNat * 17179869184 := by
    have := or_shiftLeft_eq_add (24 + b.toNat * 32) c.toNat 34 (by norm_num; omega)
    simpa using this
  have h3 : (24 + b.toNat * 32 + c.toNat * 17179869184) ||| d.toNat <<< 49 =
      24 + b.toNat * 32 + c.toNat * 17179869184 + d.toNat * 562949953421312 := by
    have := or_shiftLeft_eq_add (24 + b.toNat * 32 + c.toNat * 17179869184) d.toNat 49
      (by norm_num; omega)
    simpa using this
  rw [h1, h2, h3]

/-! ## Reduction lemmas for `extract_fields` at each concrete instruction -/

lemma extract_LOAD_CONST (bn cn : Nat) (hb : bn < 131072) (hc : cn < 536870912) :
    LOAD_CONST_DEF.extract_fields (17 + bn * 32 + cn * 4194304) =
      [("B", (bn : Int)), ("C", (cn : Int))] := by
  have hred : LOAD_CONST_DEF.extract_fields (17 + bn * 32 + cn * 4194304) =
      [("B", ((((17 + bn * 32 + cn * 4194304) >>> 5) &&& 131071 : Nat) : Int)),
       ("C", ((((17 + bn * 32 + cn * 4194304) >>> 22) &&& 536870911 : Nat) : Int))] := rfl
  have h1 : ((17 + bn * 32 + cn * 4194304) >>> 5) &&& 131071 = bn := by
    have := extract_of_add 17 bn cn 5 17 (by norm_num) (by omega)
    norm_num at this
    simpa using this
  have h2 : ((17 + bn * 32 + cn * 4194304) >>> 22) &&& 536870911 = cn := by
    have := extract_of_add (17 + bn * 32) cn 0 22 29 (by omega) (by omega)
    norm_num at this
    simpa using this
  rw [hred, h1, h2]

lemma extract_READ_MEM (bn cn dn : Nat) (hb : bn < 536870912) (hc : cn < 32768)
    (hd : dn < 536870912) :
    READ_MEM_DEF.extract_fields
        (16 + bn * 32 + cn * 17179869184 + dn * 562949953421312) =
      [("B", (bn : Int)), ("C", (cn : Int)), ("D", (dn : Int))] := by
  have hred : READ_MEM_DEF.extract_fields
        (16 + bn * 32 + cn * 17179869184 + dn * 562949953421312) =
      [("B", ((((16 + bn * 32 + cn * 17179869184 + dn * 562949953421312) >>> 5)
          &&& 536870911 : Nat) : Int)),
       ("C", ((((16 + bn * 32 + cn * 17179869184 + dn * 562949953421312) >>> 34)
          &&& 32767 : Nat) : Int)),
       ("D", ((((16 + bn * 32 + cn * 17179869184 + dn * 562949953421312) >>> 49)
          &&& 536870911 : Nat) : Int))] := rfl
  have h1 : ((16 + bn * 32 + cn * 17179869184 + dn * 562949953421312) >>> 5)
      &&& 536870911 = bn := by
    have := extract_of_add 16 bn (cn + dn * 32768) 5 29 (by norm_num) (by omega)
    norm_num at this
    calc ((16 + bn * 32 + cn * 17179869184 + dn * 562949953421312) >>> 5) &&& 536870911
        = ((16 + bn * 32 + (cn + dn * 32768) * 17179869184) >>> 5) &&& 536870911 := by
          ring_nf
      _ = bn := this
  have h2 : ((16 + bn * 32 + cn * 17179869184 + dn * 562949953421312) >>> 34)
      &&& 32767 = cn := by
    have := extract_of_add (16 + bn * 32) cn dn 34 15 (by omega) (by omega)
    norm_num at this
    simpa using this
  have h3 : ((16 + bn * 32 + cn * 17179869184 + dn * 562949953421312) >>> 49)
      &&& 536870911 = dn := by
    have := extract_of_add (16 + bn * 32 + cn * 17179869184) dn 0 49 29 (by omega) (by omega)
    norm_num at this
    simpa using this
  rw [hred, h1, h2, h3]

lemma extract_WRITE_MEM (bn cn : Nat) (hb : bn < 536870912) (hc : cn < 536870912) :
    WRITE_MEM_DEF.extract_fields (23 + bn * 32 + cn * 17179869184) =
      [("B", (bn : Int)), ("C", (cn : Int))] := by
  have hred : WRITE_MEM_DEF.extract_fields (23 + bn * 32 + cn * 17179869184) =
      [("B", ((((23 + bn * 32 + cn * 17179869184) >>> 5) &&& 536870911 : Nat) : Int)),
       ("C", ((((23 + bn * 32 + cn * 17179869184) >>> 34) &&& 536870911 : Nat) : Int))] := rfl
  have h1 : ((23 + bn * 32 + cn * 17179869184) >>> 5) &&& 536870911 = bn := by
    have := extract_of_add 23 bn cn 5 29 (by norm_num) (by omega)
    norm_num at this
    simpa using this
  have h2 : ((23 + bn * 32 + cn * 17179869184) >>> 34) &&& 536870911 = cn := by
    have := extract_of_add (23 + bn * 32) cn 0 34 29 (by omega) (by omega)
    norm_num at this
    simpa using this
  rw [hred, h1, h2]

lemma extract_NOT_MEM (bn cn dn : Nat) (hb : bn < 536870912) (hc : cn < 32768)
    (hd : dn < 536870912) :
    NOT_MEM_DEF.extract_fields
        (24 + bn * 32 + cn * 17179869184 + dn * 562949953421312) =
      [("B", (bn : Int)), ("C", (cn : Int)), ("D", (dn : Int))] := by
  have hred : NOT_MEM_DEF.extract_fields
        (24 + bn * 32 + cn * 17179869184 + dn * 562949953421312) =
      [("B", ((((24 + bn * 32 + cn * 17179869184 + dn * 562949953421312) >>> 5)
          &&& 536870911 : Nat) : Int)),
       ("C", ((((24 + bn * 32 + cn * 17179869184 + dn * 562949953421312) >>> 34)
          &&& 32767 : Nat) : Int)),
       ("D", ((((24 + bn * 32 + cn * 17179869184 + dn * 562949953421312) >>> 49)
          &&& 536870911 : Nat) : Int))] := rfl
  have h1 : ((24 + bn * 32 + cn * 17179869184 + dn * 562949953421312) >>> 5)
      &&& 536870911 = bn := by
    have := extract_of_add 24 bn (cn + dn * 32768) 5 29 (by norm_num) (by omega)
    norm_num at this
    calc ((24 + bn * 32 + cn * 17179869184 + dn * 562949953421312) >>> 5) &&& 536870911
        = ((24 + bn * 32 + (cn + dn * 32768) * 17179869184) >>> 5) &&& 536870911 := by
          ring_nf
      _ = bn := this
  have h2 : ((24 + bn * 32 + cn * 17179869184 + dn * 562949953421312) >>> 34)
      &&& 32767 = cn := by
    have := extract_of_add (24 + bn * 32) cn dn 34 15 (by omega) (by omega)
    norm_num at this
    simpa using this
  have h3 : ((24 + bn * 32 + cn * 17179869184 + dn * 562949953421312) >>> 49)
      &&& 536870911 = dn := by
    have := extract_of_add (24 + bn * 32 + cn * 17179869184) dn 0 49 29 (by omega) (by omega)
    norm_num at this
    simpa using this
  rw [hred, h1, h2, h3]

/-! ## Opcode recovery from assembled words -/

lemma opcode_LOAD_CONST (bn cn : Nat) :
    (17 + bn * 32 + cn * 4194304) &&& 31 = 17 := by
  rw [show (31 : Nat) = 2 ^ 5 - 1 from rfl, Nat.and_pow_two_sub_one_eq_mod]
  omega

lemma opcode_READ_MEM (bn cn dn : Nat) :
    (16 + bn * 32 + cn * 17179869184 + dn * 562949953421312) &&& 31 = 16 := by
  rw [show (31 : Nat) = 2 ^ 5 - 1 from rfl, Nat.and_pow_two_sub_one_eq_mod]
  omega

lemma opcode_WRITE_MEM (bn cn : Nat) :
    (23 + bn * 32 + cn * 17179869184) &&& 31 = 23 := by
  rw [show (31 : Nat) = 2 ^ 5 - 1 from rfl, Nat.and_pow_two_sub_one_eq_mod]
  omega

lemma opcode_NOT_MEM (bn cn dn : Nat) :
    (24 + bn * 32 + cn * 17179869184 + dn * 562949953421312) &&& 31 = 24 := by
  rw [show (31 : Nat) = 2 ^ 5 - 1 from rfl, Nat.and_pow_two_sub_one_eq_mod]
  omega

/-! ## Claim C2: encode/extract round trip -/

/-- C2: for every instruction definition in the fixed set and every
assignment of exactly its declared field names to in-range values
(`0 ≤ v ≤ field.mask`), encoding succeeds and extracting the fields of the
encoded word returns exactly the original assignment. -/
theorem claim_C2_round_trip :
    ∀ p ∈ INSTRUCTION_SET, ∀ values : List (String × Int),
      List.Forall₂ inRangePair p.2.fields values →
      ∃ w, p.2.encode values = .ok w ∧ p.2.extract_fields w = values := by
  intro p hp values hv
  fin_cases hp
  · -- LOAD_CONST
    obtain ⟨b, r1, rfl, hb0, hb1, hv⟩ := forall2_cons_inv hv
    obtain ⟨c, r2, rfl, hc0, hc1, hv⟩ := forall2_cons_inv hv
    rw [List.forall₂_nil_left_iff] at hv
    subst hv
    rw [show ((FIELD_B_SHORT.mask : Int)) = 131071 from rfl] at hb1
    rw [show ((FIELD_C_LONG.mask : Int)) = 536870911 from rfl] at hc1
    refine ⟨_, encode_LOAD_CONST b c hb0 hb1 hc0 hc1, ?_⟩
    rw [extract_LOAD_CONST b.toNat c.toNat (by omega) (by omega)]
    simp [FIELD_B_SHORT, FIELD_C_LONG, Int.toNat_of_nonneg hb0, Int.toNat_of_nonneg hc0]
  · -- READ_MEM
    obtain ⟨b, r1, rfl, hb0, hb1, hv⟩ := forall2_cons_inv hv
    obtain ⟨c, r2, rfl, hc0, hc1, hv⟩ := forall2_cons_inv hv
    obtain ⟨d, r3, rfl, hd0, hd1, hv⟩ := forall2_cons_inv hv
    rw [List.forall₂_nil_left_iff] at hv
    subst hv
    rw [show ((FIELD_B_LONG.mask : Int)) = 536870911 from rfl] at hb1
    rw [show ((FIELD_C_SHORT.mask : Int)) = 32767 from rfl] at hc1
    rw [show ((FIELD_D_LONG.mask : Int)) = 536870911 from rfl] at hd1
    refine ⟨_, encode_READ_MEM b c d hb0 hb1 hc0 hc1 hd0 hd1, ?_⟩
    rw [extract_READ_MEM b.toNat c.toNat d.toNat (by omega) (by omega) (by omega)]
    simp [FIELD_B_LONG, FIELD_C_SHORT, FIELD_D_LONG, Int.toNat_of_nonneg hb0,
      Int.toNat_of_nonneg hc0, Int.toNat_of_nonneg hd0]
  · -- WRITE_MEM
    obtain ⟨b, r1, rfl, hb0, hb1, hv⟩ := forall2_cons_inv hv
    obtain ⟨c, r2, rfl, hc0, hc1, hv⟩ := forall2_cons_inv hv
    rw [List.forall₂_nil_left_iff] at hv
    subst hv
    rw [show ((FIELD_B_LONG.mask : Int)) = 536870911 from rfl] at hb1
    rw [show ((FIELD_C_MEDIUM.mask : Int)) = 536870911 from rfl] at hc1
    refine ⟨_, encode_WRITE_MEM b c hb0 hb1 hc0 hc1, ?_⟩
    rw [extract_WRITE_MEM b.toNat c.toNat (by omega) (by omega)]
    simp [FIELD_B_LONG, FIELD_C_MEDIUM, Int.toNat_of_nonneg hb0, Int.toNat_of_nonneg hc0]
  · -- NOT_MEM
    obtain ⟨b, r1, rfl, hb0, hb1, hv⟩ := forall2_cons_inv hv
    obtain ⟨c, r2, rfl, hc0, hc1, hv⟩ := forall2_cons_inv hv
    obtain ⟨d, r3, rfl, hd0, hd1, hv⟩ := forall2_cons_inv hv
    rw [List.forall₂_nil_left_iff] at hv
    subst hv
    rw [show ((FIELD_B_LONG.mask : Int)) = 536870911 from rfl] at hb1
    rw [show ((FIELD_C_SHORT.mask : Int)) = 32767 from rfl] at hc1
    rw [show ((FIELD_D_LONG.mask : Int)) = 536870911 from rfl] at hd1
    refine ⟨_, encode_NOT_MEM b c d hb0 hb1 hc0 hc1 hd0 hd1, ?_⟩
    rw [extract_NOT_MEM b.toNat c.toNat d.toNat (by omega) (by omega) (by omega)]
    simp [FIELD_B_LONG, FIELD_C_SHORT, FIELD_D_LONG, Int.toNat_of_nonneg hb0,
      Int.toNat_of_nonneg hc0, Int.toNat_of_nonneg hd0]

/-- Witness for C2: the round trip at `READ_MEM` with `B=7, C=3, D=20`. -/
theorem claim_C2_round_trip_witness :
    ("READ_MEM", READ_MEM_DEF) ∈ INSTRUCTION_SET ∧
    List.Forall₂ inRangePair READ_MEM_DEF.fields [("B", 7), ("C", 3), ("D", 20)] ∧
    ∃ w, READ_MEM_DEF.encode [("B", 7), ("C", 3), ("D", 20)] = .ok w ∧
      READ_MEM_DEF.extract_fields w = [("B", 7), ("C", 3), ("D", 20)] :=
  ⟨by decide, by decide,
    claim_C2_round_trip ("READ_MEM", READ_MEM_DEF) (by decide)
      [("B", 7), ("C", 3), ("D", 20)] (by decide)⟩

/-! ## Claim C6: decoding inverts encoding on the mnemonic -/

/-- C6: for every mnemonic in the fixed set and every in-range operand
assignment, decoding the word produced by encoding yields a machine
instruction whose definition carries that same mnemonic. -/
theorem claim_C6_opcode_injectivity :
    ∀ p ∈ INSTRUCTION_SET, ∀ values : List (String × Int),
      List.Forall₂ inRangePair p.2.fields values →
      ∃ w mi, p.2.encode values = .ok w ∧ decode_word w = .ok mi ∧
        mi.definition.mnemonic = p.1 := by
  intro p hp values hv
  fin_cases hp
  · -- LOAD_CONST
    obtain ⟨b, r1, rfl, hb0, hb1, hv⟩ := forall2_cons_inv hv
    obtain ⟨c, r2, rfl, hc0, hc1, hv⟩ := forall2_cons_inv hv
    rw [List.forall₂_nil_left_iff] at hv
    subst hv
    rw [show ((FIELD_B_SHORT.mask : Int)) = 131071 from rfl] at hb1
    rw [show ((FIELD_C_LONG.mask : Int)) = 536870911 from rfl] at hc1
    refine ⟨17 + b.toNat * 32 + c.toNat * 4194304,
      ⟨LOAD_CONST_DEF,
        LOAD_CONST_DEF.extract_fields (17 + b.toNat * 32 + c.toNat * 4194304),
        17 + b.toNat * 32 + c.toNat * 4194304⟩,
      encode_LOAD_CONST b c hb0 hb1 hc0 hc1, ?_, rfl⟩
    have hop : (17 + b.toNat * 32 + c.toNat * 4194304) &&& ((1 <<< OPCODE_BITS) - 1) = 17 :=
      opcode_LOAD_CONST b.toNat c.toNat
    simp only [decode_word, hop]
    rfl
  · -- READ_MEM
    obtain ⟨b, r1, rfl, hb0, hb1, hv⟩ := forall2_cons_inv hv
    obtain ⟨c, r2, rfl, hc0, hc1, hv⟩ := forall2_cons_inv hv
    obtain ⟨d, r3, rfl, hd0, hd1, hv⟩ := forall2_cons_inv hv
    rw [List.forall₂_nil_left_iff] at hv
    subst hv
    rw [show ((FIELD_B_LONG.mask : Int)) = 536870911 from rfl] at hb1
    rw [show ((FIELD_C_SHORT.mask : Int)) = 32767 from rfl] at hc1
    rw [show ((FIELD_D_LONG.mask : Int)) = 536870911 from rfl] at hd1
    refine ⟨16 + b.toNat * 32 + c.toNat * 17179869184 + d.toNat * 562949953421312,
      ⟨READ_MEM_DEF,
        READ_MEM_DEF.extract_fields
          (16 + b.toNat * 32 + c.toNat * 17179869184 + d.toNat * 562949953421312),
        16 + b.toNat * 32 + c.toNat * 17179869184 + d.toNat * 562949953421312⟩,
      encode_READ_MEM b c d hb0 hb1 hc0 hc1 hd0 hd1, ?_, rfl⟩
    have hop : (16 + b.toNat * 32 + c.toNat * 17179869184 + d.toNat * 562949953421312)
        &&& ((1 <<< OPCODE_BITS) - 1) = 16 :=
      opcode_READ_MEM b.toNat c.toNat d.toNat
    simp only [decode_word, hop]
    rfl
  · -- WRITE_MEM
    obtain ⟨b, r1, rfl, hb0, hb1, hv⟩ := forall2_cons_inv hv
    obtain ⟨c, r2, rfl, hc0, hc1, hv⟩ := forall2_cons_inv hv
    rw [List.forall₂_nil_left_iff] at hv
    subst hv
    rw [show ((FIELD_B_LONG.mask : Int)) = 536870911 from rfl] at hb1
    rw [show ((FIELD_C_MEDIUM.mask : Int)) = 536870911 from rfl] at hc1
    refine ⟨23 + b.toNat * 32 + c.toNat * 17179869184,
      ⟨WRITE_MEM_DEF,
        WRITE_MEM_DEF.extract_fields (23 + b.toNat * 32 + c.toNat * 17179869184),
        23 + b.toNat * 32 + c.toNat * 17179869184⟩,
      encode_WRITE_MEM b c hb0 hb1 hc0 hc1, ?_, rfl⟩
    have hop : (23 + b.toNat * 32 + c.toNat * 17179869184)
        &&& ((1 <<< OPCODE_BITS) - 1) = 23 :=
      opcode_WRITE_MEM b.toNat c.toNat
    simp only [decode_word, hop]
    rfl
  · -- NOT_MEM
    obtain ⟨b, r1, rfl, hb0, hb1, hv⟩ := forall2_cons_inv hv
    obtain ⟨c, r2, rfl, hc0, hc1, hv⟩ := forall2_cons_inv hv
    obtain ⟨d, r3, rfl, hd0, hd1, hv⟩ := forall2_cons_inv hv
    rw [List.forall₂_nil_left_iff] at hv
    subst hv
    rw [show ((FIELD_B_LONG.mask : Int)) = 536870911 from rfl] at hb1
    rw [show ((FIELD_C_SHORT.mask : Int)) = 32767 from rfl] at hc1
    rw [show ((FIELD_D_LONG.mask : Int)) = 536870911 from rfl] at hd1
    refine ⟨24 + b.toNat * 32 + c.toNat * 17179869184 + d.toNat * 562949953421312,
      ⟨NOT_MEM_DEF,
        NOT_MEM_DEF.extract_fields
          (24 + b.toNat * 32 + c.toNat * 17179869184 + d.toNat * 562949953421312),
        24 + b.toNat * 32 + c.toNat * 17179869184 + d.toNat * 562949953421312⟩,
      encode_NOT_MEM b c d hb0 hb1 hc0 hc1 hd0 hd1, ?_, rfl⟩
    have hop : (24 + b.toNat * 32 + c.toNat * 17179869184 + d.toNat * 562949953421312)
        &&& ((1 <<< OPCODE_BITS) - 1) = 24 :=
      opcode_NOT_MEM b.toNat c.toNat d.toNat
    simp only [decode_word, hop]
    rfl

/-- Witness for C6: encode-then-decode at `WRITE_MEM` with `B=4, C=9`. -/
theorem claim_C6_opcode_injectivity_witness :
    ("WRITE_MEM", WRITE_MEM_DEF) ∈ INSTRUCTION_SET ∧
    List.Forall₂ inRangePair WRITE_MEM_DEF.fields [("B", 4), ("C", 9)] ∧
    ∃ w mi, WRITE_MEM_DEF.encode [("B", 4), ("C", 9)] = .ok w ∧
      decode_word w = .ok mi ∧ mi.definition.mnemonic = "WRITE_MEM" :=
  ⟨by decide, by decide,
    claim_C6_opcode_injectivity ("WRITE_MEM", WRITE_MEM_DEF) (by decide)
      [("B", 4), ("C", 9)] (by decide)⟩

/-! ## Claim C5: width enforcement at each field boundary -/

/-- C5: for every instruction definition in the fixed set and every declared
field (all nine definition/field pairs are enumerated), an otherwise-valid
assignment giving that field the value `field.mask` encodes successfully,
while giving it `field.mask + 1` fails with a RangeError identifying the
field, the offending value and the field's width. -/
theorem claim_C5_width_enforcement :
    (∀ c : Int, 0 ≤ c → c ≤ 536870911 →
      (∃ w, LOAD_CONST_DEF.encode [("B", 131071), ("C", c)] = .ok w) ∧
      LOAD_CONST_DEF.encode [("B", 131072), ("C", c)] =
        .error (.rangeError "B" 131072 17)) ∧
    (∀ b : Int, 0 ≤ b → b ≤ 131071 →
      (∃ w, LOAD_CONST_DEF.encode [("B", b), ("C", 536870911)] = .ok w) ∧
      LOAD_CONST_DEF.encode [("B", b), ("C", 536870912)] =
        .error (.rangeError "C" 536870912 29)) ∧
    (∀ c d : Int, 0 ≤ c → c ≤ 32767 → 0 ≤ d → d ≤ 536870911 →
      (∃ w, READ_MEM_DEF.encode [("B", 536870911), ("C", c), ("D", d)] = .ok w) ∧
      READ_MEM_DEF.encode [("B", 536870912), ("C", c), ("D", d)] =
        .error (.rangeError "B" 536870912 29)) ∧
    (∀ b d : Int, 0 ≤ b → b ≤ 536870911 → 0 ≤ d → d ≤ 536870911 →
      (∃ w, READ_MEM_DEF.encode [("B", b), ("C", 32767), ("D", d)] = .ok w) ∧
      READ_MEM_DEF.encode [("B", b), ("C", 32768), ("D", d)] =
        .error (.rangeError "C" 32768 15)) ∧
    (∀ b c : Int, 0 ≤ b → b ≤ 536870911 → 0 ≤ c → c ≤ 32767 →
      (∃ w, READ_MEM_DEF.encode [("B", b), ("C", c), ("D", 536870911)] = .ok w) ∧
      READ_MEM_DEF.encode [("B", b), ("C", c), ("D", 536870912)] =
        .error (.rangeError "D" 536870912 29)) ∧
    (∀ c : Int, 0 ≤ c → c ≤ 536870911 →
      (∃ w, WRITE_MEM_DEF.encode [("B", 536870911), ("C", c)] = .ok w) ∧
      WRITE_MEM_DEF.encode [("B", 536870912), ("C", c)] =
        .error (.rangeError "B" 536870912 29)) ∧
    (∀ b : Int, 0 ≤ b → b ≤ 536870911 →
      (∃ w, WRITE_MEM_DEF.encode [("B", b), ("C", 536870911)] = .ok w) ∧
      WRITE_MEM_DEF.encode [("B", b), ("C", 536870912)] =
        .error (.rangeError "C" 536870912 29)) ∧
    (∀ c d : Int, 0 ≤ c → c ≤ 32767 → 0 ≤ d → d ≤ 536870911 →
      (∃ w, NOT_MEM_DEF.encode [("B", 536870911), ("C", c), ("D", d)] = .ok w) ∧
      NOT_MEM_DEF.encode [("B", 536870912), ("C", c), ("D", d)] =
        .error (.rangeError "B" 536870912 29)) ∧
    (∀ b d : Int, 0 ≤ b → b ≤ 536870911 → 0 ≤ d → d ≤ 536870911 →
      (∃ w, NOT_MEM_DEF.encode [("B", b), ("C", 32767), ("D", d)] = .ok w) ∧
      NOT_MEM_DEF.encode [("B", b), ("C", 32768), ("D", d)] =
        .error (.rangeError "C" 32768 15)) ∧
    (∀ b c : Int, 0 ≤ b → b ≤ 536870911 → 0 ≤ c → c ≤ 32767 →
      (∃ w, NOT_MEM_DEF.encode [("B", b), ("C", c), ("D", 536870911)] = .ok w) ∧
      NOT_MEM_DEF.encode [("B", b), ("C", c), ("D", 536870912)] =
        .error (.rangeError "D" 536870912 29)) := by
  refine ⟨?_, ?_, ?_, ?_, ?_, ?_, ?_, ?_, ?_, ?_⟩
  · intro c hc0 hc1
    refine ⟨⟨_, encode_LOAD_CONST 131071 c (by norm_num) (by norm_num) hc0 hc1⟩, ?_⟩
    rw [encodeRed_LOAD_CONST, if_pos (by norm_num)]
  · intro b hb0 hb1
    refine ⟨⟨_, encode_LOAD_CONST b 536870911 hb0 hb1 (by norm_num) (by norm_num)⟩, ?_⟩
    rw [encodeRed_LOAD_CONST, if_neg (by omega), if_pos (by norm_num)]
  · intro c d hc0 hc1 hd0 hd1
    refine ⟨⟨_, encode_READ_MEM 536870911 c d (by norm_num) (by norm_num) hc0 hc1 hd0 hd1⟩, ?_⟩
    rw [encodeRed_READ_MEM, if_pos (by norm_num)]
  · intro b d hb0 hb1 hd0 hd1
    refine ⟨⟨_, encode_READ_MEM b 32767 d hb0 hb1 (by norm_num) (by norm_num) hd0 hd1⟩, ?_⟩
    rw [encodeRed_READ_MEM, if_neg (by omega), if_pos (by norm_num)]
  · intro b c hb0 hb1 hc0 hc1
    refine ⟨⟨_, encode_READ_MEM b c 536870911 hb0 hb1 hc0 hc1 (by norm_num) (by norm_num)⟩, ?_⟩
    rw [encodeRed_READ_MEM, if_neg (by omega), if_neg (by omega), if_pos (by norm_num)]
  · intro c hc0 hc1
    refine ⟨⟨_, encode_WRITE_MEM 536870911 c (by norm_num) (by norm_num) hc0 hc1⟩, ?_⟩
    rw [encodeRed_WRITE_MEM, if_pos (by norm_num)]
  · intro b hb0 hb1
    refine ⟨⟨_, encode_WRITE_MEM b 536870911 hb0 hb1 (by norm_num) (by norm_num)⟩, ?_⟩
    rw [encodeRed_WRITE_MEM, if_neg (by omega), if_pos (by norm_num)]
  · intro c d hc0 hc1 hd0 hd1
    refine ⟨⟨_, encode_NOT_MEM 536870911 c d (by norm_num) (by norm_num) hc0 hc1 hd0 hd1⟩, ?_⟩
    rw [encodeRed_NOT_MEM, if_pos (by norm_num)]
  · intro b d hb0 hb1 hd0 hd1
    refine ⟨⟨_, encode_NOT_MEM b 32767 d hb0 hb1 (by norm_num) (by norm_num) hd0 hd1⟩, ?_⟩
    rw [encodeRed_NOT_MEM, if_neg (by omega), if_pos (by norm_num)]
  · intro b c hb0 hb1 hc0 hc1
    refine ⟨⟨_, encode_NOT_MEM b c 536870911 hb0 hb1 hc0 hc1 (by norm_num) (by norm_num)⟩, ?_⟩
    rw [encodeRed_NOT_MEM, if_neg (by omega), if_neg (by omega), if_pos (by norm_num)]

/-- Witness for C5: the `LOAD_CONST` field `B` boundary with `C = 5`. -/
theorem claim_C5_width_enforcement_witness :
    (0 : Int) ≤ 5 ∧ (5 : Int) ≤ 536870911 ∧
    ((∃ w, LOAD_CONST_DEF.encode [("B", 131071), ("C", 5)] = .ok w) ∧
      LOAD_CONST_DEF.encode [("B", 131072), ("C", 5)] =
        .error (.rangeError "B" 131072 17)) :=
  ⟨by decide, by decide, claim_C5_width_enforcement.1 5 (by decide) (by decide)⟩

/-! ## Claim C10: lowercase keys pass validation but hit a KeyError -/

/-- Models Python `str.lower` on a single ASCII character (used only to
state which inputs the claim is about). -/
def lowerChar (c : Char) : Char :=
  if 'A' ≤ c ∧ c ≤ 'Z' then Char.ofNat (c.toNat + 32) else c

/-- Models Python `str.lower` (exact for ASCII strings). -/
def asciiLower (s : String) : String :=
  ⟨s.data.map lowerChar⟩

lemma map_fst_eq_two {values : List (String × Int)} {k1 k2 : String}
    (h : values.map Prod.fst = [k1, k2]) :
    ∃ v1 v2, values = [(k1, v1), (k2, v2)] := by
  cases values with
  | nil => simp at h
  | cons a rest =>
    cases rest with
    | nil => simp at h
    | cons b rest2 =>
      cases rest2 with
      | nil =>
        simp at h
        exact ⟨a.2, b.2, by rw [← h.1, ← h.2]⟩
      | cons c rest3 => simp at h

lemma map_fst_eq_three {values : List (String × Int)} {k1 k2 k3 : String}
    (h : values.map Prod.fst = [k1, k2, k3]) :
    ∃ v1 v2 v3, values = [(k1, v1), (k2, v2), (k3, v3)] := by
  cases values with
  | nil => simp at h
  | cons a rest =>
    cases rest with
    | nil => simp at h
    | cons b rest2 =>
      cases rest2 with
      | nil => simp at h
      | cons c rest3 =>
        cases rest3 with
        | nil =>
          simp at h
          exact ⟨a.2, b.2, c.2, by rw [← h.1, ← h.2.1, ← h.2.2]⟩
        | cons d rest4 => simp at h

/-- C10: for every instruction definition (all of which declare uppercase
field names), supplying a values mapping keyed by the lowercase versions of
exactly the declared names passes `validate_fields` (which compares names
case-insensitively) but then fails with a `KeyError` inside `encode` when
the uppercase name is looked up — not with a schema or range error. -/
theorem claim_C10_lowercase_keyerror :
    ∀ p ∈ INSTRUCTION_SET, ∀ values : List (String × Int),
      values.map Prod.fst = p.2.fields.map (fun f => asciiLower f.name) →
      p.2.validate_fields values = none ∧
      p.2.encode values = .error (.keyError "B") := by
  intro p hp values hk
  fin_cases hp
  · rw [show (("LOAD_CONST", LOAD_CONST_DEF) : String × InstructionDefinition).2.fields.map
        (fun f => asciiLower f.name) = ["b", "c"] from rfl] at hk
    obtain ⟨v1, v2, rfl⟩ := map_fst_eq_two hk
    exact ⟨rfl, rfl⟩
  · rw [show (("READ_MEM", READ_MEM_DEF) : String × InstructionDefinition).2.fields.map
        (fun f => asciiLower f.name) = ["b", "c", "d"] from rfl] at hk
    obtain ⟨v1, v2, v3, rfl⟩ := map_fst_eq_three hk
    exact ⟨rfl, rfl⟩
  · rw [show (("WRITE_MEM", WRITE_MEM_DEF) : String × InstructionDefinition).2.fields.map
        (fun f => asciiLower f.name) = ["b", "c"] from rfl] at hk
    obtain ⟨v1, v2, rfl⟩ := map_fst_eq_two hk
    exact ⟨rfl, rfl⟩
  · rw [show (("NOT_MEM", NOT_MEM_DEF) : String × InstructionDefinition).2.fields.map
        (fun f => asciiLower f.name) = ["b", "c", "d"] from rfl] at hk
    obtain ⟨v1, v2, v3, rfl⟩ := map_fst_eq_three hk
    exact ⟨rfl, rfl⟩

/-- Witness for C10: lowercase keys against `LOAD_CONST`. -/
theorem claim_C10_lowercase_keyerror_witness :
    [(("b" : String), (5 : Int)), ("c", 6)].map Prod.fst =
      LOAD_CONST_DEF.fields.map (fun f => asciiLower f.name) ∧
    LOAD_CONST_DEF.validate_fields [("b", 5), ("c", 6)] = none ∧
    LOAD_CONST_DEF.encode [("b", 5), ("c", 6)] = .error (.keyError "B") := by
  refine ⟨by decide, ?_, ?_⟩
  · exact (claim_C10_lowercase_keyerror ("LOAD_CONST", LOAD_CONST_DEF) (by decide)
      [("b", 5), ("c", 6)] (by decide)).1
  · exact (claim_C10_lowercase_keyerror ("LOAD_CONST", LOAD_CONST_DEF) (by decide)
      [("b", 5), ("c", 6)] (by decide)).2

/-! ## Claim C4: error propagation in `encode_words` has no position info -/

/-- Counterexample to C4 as stated: the very same error value is produced
whether the offending instruction sits at index 0 or at index 1, so the
error propagated by `encode_words` cannot carry the offending instruction's
position. -/
theorem claim_C4_counterexample :
    encode_words [⟨"BOGUS", []⟩] = .error (.unknownMnemonic "BOGUS") ∧
    encode_words [⟨"LOAD_CONST", [("B", 1), ("C", 2)]⟩, ⟨"BOGUS", []⟩] =
      .error (.unknownMnemonic "BOGUS") :=
  ⟨rfl, rfl⟩

/-- C4 as amended: when every instruction before index `i` encodes
successfully and the one at index `i` fails, `encode_words` propagates the
failing instruction's error to the caller unchanged — carrying the unknown
mnemonic or the schema-level error data, but no positional information. -/
theorem claim_C4_amended_error_propagation :
    ∀ (irs : List InstructionIR) (i : Nat) (hi : i < irs.length) (e : AsmError),
      (∀ j (hj : j < irs.length), j < i → ∃ w, encodeOne (irs.get ⟨j, hj⟩) = .ok w) →
      encodeOne (irs.get ⟨i, hi⟩) = .error e →
      encode_words irs = .error e := by
  intro irs
  induction irs with
  | nil => intro i hi; simp at hi
  | cons ir rest ih =>
    intro i hi e hok hbad
    cases i with
    | zero =>
      simp only [List.get] at hbad
      simp only [encode_words, hbad]
    | succ i' =>
      obtain ⟨w, hw⟩ : ∃ w, encodeOne ir = .ok w := by
        have h := hok 0 (by simp) (by omega)
        simpa using h
      have hrest : encode_words rest = .error e := by
        refine ih i' (by simpa using hi) e ?_ (by simpa using hbad)
        intro j hj hji
        have h := hok (j + 1) (by simpa using Nat.succ_lt_succ hj) (by omega)
        simpa using h
      simp only [encode_words, hw, hrest]

/-- Witness for the amended C4: a failure at index 1 behind one successful
instruction propagates that instruction's own error. -/
theorem claim_C4_amended_error_propagation_witness :
    encodeOne (([⟨"LOAD_CONST", [("B", 0), ("C", 0)]⟩,
        ⟨"BOGUS", [("B", 0)]⟩] : List InstructionIR).get ⟨1, by decide⟩) =
      .error (.unknownMnemonic "BOGUS") ∧
    encode_words [⟨"LOAD_CONST", [("B", 0), ("C", 0)]⟩, ⟨"BOGUS", [("B", 0)]⟩] =
      .error (.unknownMnemonic "BOGUS") := by
  refine ⟨rfl, ?_⟩
  refine claim_C4_amended_error_propagation _ 1 (by decide)
    (.unknownMnemonic "BOGUS") ?_ rfl
  intro j hj hj1
  interval_cases j
  exact ⟨17, rfl⟩

/-! ## Helper lemmas about `Int.land` with the 64-bit word mask -/

lemma testBit_ldiff (m n i : Nat) :
    (Nat.ldiff m n).testBit i = (m.testBit i && !(n.testBit i)) := by
  unfold Nat.ldiff
  rw [Nat.testBit_bitwise rfl]

lemma ldiff_le (m n : Nat) : Nat.ldiff m n ≤ m := by
  apply Nat.le_of_testBit
  intro i h
  rw [testBit_ldiff] at h
  exact (Bool.and_eq_true_iff.mp h).1

lemma ldiff_and_self (m n : Nat) : Nat.ldiff m n &&& m = Nat.ldiff m n := by
  apply Nat.eq_of_testBit_eq
  intro i
  rw [Nat.testBit_and, testBit_ldiff]
  cases m.testBit i <;> simp

lemma land_mask_ofNat (n : Nat) :
    Int.land (n : Int) (WORD_MASK : Int) = ((n &&& WORD_MASK : Nat) : Int) := rfl

lemma land_mask_negSucc (n : Nat) :
    Int.land (Int.negSucc n) (WORD_MASK : Int) = ((Nat.ldiff WORD_MASK n : Nat) : Int) := rfl

lemma land_mask_nonneg (v : Int) : 0 ≤ Int.land v (WORD_MASK : Int) := by
  cases v with
  | ofNat n => rw [show Int.ofNat n = (n : Int) from rfl, land_mask_ofNat]; positivity
  | negSucc n => rw [land_mask_negSucc]; positivity

lemma land_mask_le (v : Int) : Int.land v (WORD_MASK : Int) ≤ (WORD_MASK : Int) := by
  cases v with
  | ofNat n =>
    rw [show Int.ofNat n = (n : Int) from rfl, land_mask_ofNat]
    exact_mod_cast Nat.and_le_right
  | negSucc n =>
    rw [land_mask_negSucc]
    exact_mod_cast ldiff_le WORD_MASK n

lemma land_mask_self (v : Int) (h0 : 0 ≤ v) (h1 : v ≤ (WORD_MASK : Int)) :
    Int.land v (WORD_MASK : Int) = v := by
  obtain ⟨n, rfl⟩ := Int.eq_ofNat_of_zero_le h0
  rw [land_mask_ofNat]
  have hn : n ≤ WORD_MASK := by exact_mod_cast h1
  have hmk : WORD_MASK = 2 ^ 64 - 1 := by decide
  congr 1
  rw [hmk, Nat.and_pow_two_sub_one_eq_mod]
  omega

lemma land_mask_idem (x : Int) :
    Int.land (Int.land x (WORD_MASK : Int)) (WORD_MASK : Int) =
      Int.land x (WORD_MASK : Int) :=
  land_mask_self _ (land_mask_nonneg x) (land_mask_le x)

/-! ## Helper lemmas about `Memory` -/

/-- Every cell holds a masked word value: the invariant of memories reached
from `Memory.init` by `Memory.write` only. -/
def validMem (m : Memory) : Prop :=
  ∀ a, 0 ≤ m.cells a ∧ m.cells a ≤ (WORD_MASK : Int)

/-- Memory states whose cells were only ever populated through
`Memory.write`, starting from a fresh memory. -/
inductive WriteReachable : Memory → Prop
  | init : WriteReachable Memory.init
  | write (m : Memory) (a v : Int) (m' : Memory) :
      WriteReachable m → m.write a v = .ok m' → WriteReachable m'

lemma read_ok (m : Memory) (a : Int) (h : 0 ≤ a) : m.read a = .ok (m.cells a) := by
  rw [Memory.read, if_neg (by omega)]

lemma write_ok (m : Memory) (a v : Int) (h : 0 ≤ a) :
    m.write a v =
      .ok ⟨fun x => if x = a then Int.land v (WORD_MASK : Int) else m.cells x⟩ := by
  rw [Memory.write, if_neg (by omega)]

lemma validMem_init : validMem Memory.init := by
  intro a
  constructor
  · exact le_refl 0
  · rw [show (Memory.init.cells a) = 0 from rfl]
    positivity

lemma validMem_update (m : Memory) (a v : Int) (hm : validMem m) :
    validMem ⟨fun x => if x = a then Int.land v (WORD_MASK : Int) else m.cells x⟩ := by
  intro x
  by_cases hx : x = a
  · simp only [hx, if_pos rfl]
    exact ⟨land_mask_nonneg v, land_mask_le v⟩
  · simp only [if_neg hx]
    exact hm x

lemma validMem_of_writeReachable (m : Memory) (h : WriteReachable m) : validMem m := by
  induction h with
  | init => exact validMem_init
  | write m a v m' _ hw ih =>
    rw [Memory.write] at hw
    by_cases ha : a < 0
    · rw [if_pos ha] at hw; cases hw
    · rw [if_neg ha] at hw
      cases hw
      exact validMem_update m a v ih

/-! ## Well-formed machine instructions -/

/-- The four definitions of the fixed instruction set. -/
def knownDefs : List InstructionDefinition :=
  [LOAD_CONST_DEF, READ_MEM_DEF, WRITE_MEM_DEF, NOT_MEM_DEF]

/-- The shape guaranteed for every decoder-produced machine instruction: a
definition from the fixed set, field keys matching the declared field names
in order, and non-negative field values. -/
def WellFormed (mi : MachineInstruction) : Prop :=
  mi.definition ∈ knownDefs ∧
  mi.fields.map Prod.fst = mi.definition.fields.map FieldDefinition.name ∧
  ∀ kv ∈ mi.fields, 0 ≤ kv.2

instance (mi : MachineInstruction) : Decidable (WellFormed mi) := by
  unfold WellFormed; infer_instance

lemma by_opcode_mem (k : Nat) (d : InstructionDefinition)
    (h : INSTRUCTION_BY_OPCODE.lookup k = some d) : d ∈ knownDefs := by
  simp only [INSTRUCTION_BY_OPCODE, INSTRUCTION_SET, List.map, List.lookup] at h
  repeat' split at h
  all_goals simp_all [knownDefs]

lemma decode_ok_inv (w : Nat) (mi : MachineInstruction)
    (h : decode_word w = .ok mi) :
    mi.definition ∈ knownDefs ∧ mi.fields = mi.definition.extract_fields w ∧
      mi.raw_value = w := by
  simp only [decode_word] at h
  cases hL : INSTRUCTION_BY_OPCODE.lookup (w &&& ((1 <<< OPCODE_BITS) - 1)) with
  | none => rw [hL] at h; cases h
  | some d =>
    rw [hL] at h
    cases h
    exact ⟨by_opcode_mem _ _ hL, rfl, rfl⟩

/-- Every instruction the decoder produces is well formed. -/
lemma decode_wellFormed (w : Nat) (mi : MachineInstruction)
    (h : decode_word w = .ok mi) : WellFormed mi := by
  obtain ⟨hdef, hfields, _⟩ := decode_ok_inv w mi h
  refine ⟨hdef, ?_, ?_⟩
  · rw [hfields]
    simp [InstructionDefinition.extract_fields, List.map_map, Function.comp]
  · intro kv hkv
    rw [hfields] at hkv
    simp only [InstructionDefinition.extract_fields, List.mem_map] at hkv
    obtain ⟨f, _, rfl⟩ := hkv
    exact Int.natCast_nonneg _

/-- Executing a well-formed instruction on a valid memory always succeeds
and preserves memory validity. -/
lemma except_bind_ok {α β : Type} (a : α) (f : α → Except VMError β) :
    (Except.ok a >>= f) = f a := rfl

lemma execute_wf (mi : MachineInstruction) (hwf : WellFormed mi)
    (m : Memory) (hm : validMem m) :
    ∃ m', execute m mi = .ok m' ∧ validMem m' := by
  obtain ⟨hdef, hkeys, hnn⟩ := hwf
  simp only [knownDefs, List.mem_cons, List.mem_singleton, List.not_mem_nil, or_false]
    at hdef
  rcases hdef with hdef | hdef | hdef | hdef
  · -- LOAD_CONST
    have hkeys2 : mi.fields.map Prod.fst = ["B", "C"] := by
      rw [hdef] at hkeys; exact hkeys
    obtain ⟨v1, v2, hf⟩ := map_fst_eq_two hkeys2
    have h2 : (0 : Int) ≤ v2 := hnn ("C", v2) (by rw [hf]; exact List.mem_cons_of_mem _ (List.mem_cons_self _ _))
    refine ⟨_, ?_, validMem_update m v2 v1 hm⟩
    simp only [execute, hdef, hf]
    rw [show LOAD_CONST_DEF.mnemonic = "LOAD_CONST" from rfl]
    simp only [if_pos rfl, op_load_const, lookupField]
    simp only [List.lookup, show (("B" == "B") = true) from rfl,
      show (("B" == "C") = false) from rfl]
    simp only [except_bind_ok]
    exact write_ok m v2 v1 h2
  · -- READ_MEM
    have hkeys2 : mi.fields.map Prod.fst = ["B", "C", "D"] := by
      rw [hdef] at hkeys; exact hkeys
    obtain ⟨v1, v2, v3, hf⟩ := map_fst_eq_three hkeys2
    have h1 : (0 : Int) ≤ v1 := hnn ("B", v1) (by rw [hf]; exact List.mem_cons_self _ _)
    have h2 : (0 : Int) ≤ v2 :=
      hnn ("C", v2) (by rw [hf]; exact List.mem_cons_of_mem _ (List.mem_cons_self _ _))
    have h3 : (0 : Int) ≤ v3 :=
      hnn ("D", v3) (by
        rw [hf]
        exact List.mem_cons_of_mem _ (List.mem_cons_of_mem _ (List.mem_cons_self _ _)))
    refine ⟨_, ?_, validMem_update m v3 (m.cells (m.cells v1 + v2)) hm⟩
    simp only [execute, hdef, hf]
    rw [show READ_MEM_DEF.mnemonic = "READ_MEM" from rfl]
    simp only [if_neg (by decide : ¬("READ_MEM" = "LOAD_CONST")), if_pos rfl,
      op_read_mem, lookupField]
    simp only [List.lookup, show (("B" == "B") = true) from rfl,
      show (("C" == "B") = false) from rfl, show (("C" == "C") = true) from rfl,
      show (("D" == "B") = false) from rfl, show (("D" == "C") = false) from rfl,
      show (("D" == "D") = true) from rfl]
    simp only [except_bind_ok]
    rw [read_ok m v1 h1]
    simp only [except_bind_ok]
    rw [read_ok m (m.cells v1 + v2) (by have := (hm v1).1; omega)]
    simp only [except_bind_ok]
    exact write_ok m v3 _ h3
  · -- WRITE_MEM
    have hkeys2 : mi.fields.map Prod.fst = ["B", "C"] := by
      rw [hdef] at hkeys; exact hkeys
    obtain ⟨v1, v2, hf⟩ := map_fst_eq_two hkeys2
    have h1 : (0 : Int) ≤ v1 := hnn ("B", v1) (by rw [hf]; exact List.mem_cons_self _ _)
    have h2 : (0 : Int) ≤ v2 :=
      hnn ("C", v2) (by rw [hf]; exact List.mem_cons_of_mem _ (List.mem_cons_self _ _))
    refine ⟨_, ?_, validMem_update m v2 (m.cells v1) hm⟩
    simp only [execute, hdef, hf]
    rw [show WRITE_MEM_DEF.mnemonic = "WRITE_MEM" from rfl]
    simp only [if_neg (by decide : ¬("WRITE_MEM" = "LOAD_CONST")),
      if_neg (by decide : ¬("WRITE_MEM" = "READ_MEM")), if_pos rfl,
      op_write_mem, lookupField]
    simp only [List.lookup, show (("B" == "B") = true) from rfl,
      show (("C" == "B") = false) from rfl, show (("C" == "C") = true) from rfl]
    simp only [except_bind_ok]
    rw [read_ok m v1 h1]
    simp only [except_bind_ok]
    exact write_ok m v2 _ h2
  · -- NOT_MEM
    have hkeys2 : mi.fields.map Prod.fst = ["B", "C", "D"] := by
      rw [hdef] at hkeys; exact hkeys
    obtain ⟨v1, v2, v3, hf⟩ := map_fst_eq_three hkeys2
    have h1 : (0 : Int) ≤ v1 := hnn ("B", v1) (by rw [hf]; exact List.mem_cons_self _ _)
    have h2 : (0 : Int) ≤ v2 :=
      hnn ("C", v2) (by rw [hf]; exact List.mem_cons_of_mem _ (List.mem_cons_self _ _))
    have h3 : (0 : Int) ≤ v3 :=
      hnn ("D", v3) (by
        rw [hf]
        exact List.mem_cons_of_mem _ (List.mem_cons_of_mem _ (List.mem_cons_self _ _)))
    refine ⟨_, ?_, validMem_update m v3
      (Int.land (Int.not (m.cells (m.cells v1 + v2))) (WORD_MASK : Int)) hm⟩
    simp only [execute, hdef, hf]
    rw [show NOT_MEM_DEF.mnemonic = "NOT_MEM" from rfl]
    simp only [if_neg (by decide : ¬("NOT_MEM" = "LOAD_CONST")),
      if_neg (by decide : ¬("NOT_MEM" = "READ_MEM")),
      if_neg (by decide : ¬("NOT_MEM" = "WRITE_MEM")), if_pos rfl,
      op_not_mem, lookupField]
    simp only [List.lookup, show (("B" == "B") = true) from rfl,
      show (("C" == "B") = false) from rfl, show (("C" == "C") = true) from rfl,
      show (("D" == "B") = false) from rfl, show (("D" == "C") = false) from rfl,
      show (("D" == "D") = true) from rfl]
    simp only [except_bind_ok]
    rw [read_ok m v1 h1]
    simp only [except_bind_ok]
    rw [read_ok m (m.cells v1 + v2) (by have := (hm v1).1; omega)]
    simp only [except_bind_ok]
    exact write_ok m v3 _ h3

/-! ## Behaviour of the run loop -/

/-- With no budget, or a budget that covers the remaining instructions, the
loop executes everything and halts. -/
lemma run_halts : ∀ (n : Nat) (st : Interpreter) (ms : Option Int),
    st.program.length - st.pc = n →
    (∀ mi ∈ st.program, WellFormed mi) → validMem st.memory →
    (∀ k, ms = some k → (st.steps : Int) + n ≤ k) →
    ∃ st', Interpreter.run st ms = .ok (⟨st.steps + n, true⟩, st') ∧
      st'.program = st.program ∧ st'.pc = st.pc + n ∧
      st'.steps = st.steps + n ∧ validMem st'.memory := by
  intro n
  induction n with
  | zero =>
    intro st ms hn hwf hm hk
    have hpc : ¬ st.pc < st.program.length := by omega
    rw [Interpreter.run, dif_neg hpc]
    exact ⟨st, rfl, rfl, by omega, by omega, hm⟩
  | succ n ih =>
    intro st ms hn hwf hm hk
    have hpc : st.pc < st.program.length := by omega
    have hbud : budgetReached ms st.steps = false := by
      cases ms with
      | none => rfl
      | some k =>
        have := hk k rfl
        simp only [budgetReached, decide_eq_false_iff_not]
        omega
    obtain ⟨m', hexec, hm'⟩ := execute_wf _ (hwf _ (List.getElem_mem hpc)) st.memory hm
    rw [Interpreter.run, dif_pos hpc, hbud]
    simp only [Bool.false_eq_true, if_false, hexec]
    obtain ⟨st', hrun, hprog, hpc', hsteps, hvm⟩ :=
      ih ⟨st.program, m', st.pc + 1, st.steps + 1⟩ ms (by simp; omega)
        (by simpa using hwf) hm'
        (fun k hk' => by have := hk k hk'; simp; omega)
    refine ⟨st', ?_, hprog, by simp at hpc'; omega, by simp at hsteps; omega, hvm⟩
    rw [hrun]
    have : st.steps + 1 + n = st.steps + (n + 1) := by omega
    simp [this]

/-- With a budget smaller than the remaining instructions, the loop stops
early reporting exactly the budget and `halted = false`. -/
lemma run_budget_stops : ∀ (n : Nat) (st : Interpreter) (k : Int),
    st.program.length - st.pc = n →
    (∀ mi ∈ st.program, WellFormed mi) → validMem st.memory →
    (st.steps : Int) ≤ k → (k : Int) < (st.steps : Int) + n →
    ∃ st', Interpreter.run st (some k) = .ok (⟨k.toNat, false⟩, st') := by
  intro n
  induction n with
  | zero =>
    intro st k hn hwf hm hk1 hk2
    omega
  | succ n ih =>
    intro st k hn hwf hm hk1 hk2
    have hpc : st.pc < st.program.length := by omega
    by_cases hstop : k ≤ (st.steps : Int)
    · have hbud : budgetReached (some k) st.steps = true := by
        simp only [budgetReached, decide_eq_true_eq]
        omega
      rw [Interpreter.run, dif_pos hpc, hbud]
      have : k.toNat = st.steps := by omega
      simp [this]
    · have hbud : budgetReached (some k) st.steps = false := by
        simp only [budgetReached, decide_eq_false_iff_not]
        omega
      obtain ⟨m', hexec, hm'⟩ := execute_wf _ (hwf _ (List.getElem_mem hpc)) st.memory hm
      rw [Interpreter.run, dif_pos hpc, hbud]
      simp only [Bool.false_eq_true, if_false, hexec]
      exact ih ⟨st.program, m', st.pc + 1, st.steps + 1⟩ k (by simp; omega)
        (by simpa using hwf) hm' (by simp; omega) (by simp; omega)

/-- A run over well-formed instructions from a valid memory never raises:
it always reaches one of the two terminal states. -/
lemma run_total : ∀ (n : Nat) (st : Interpreter) (ms : Option Int),
    st.program.length - st.pc = n →
    (∀ mi ∈ st.program, WellFormed mi) → validMem st.memory →
    ∃ r st', Interpreter.run st ms = .ok (r, st') := by
  intro n
  induction n with
  | zero =>
    intro st ms hn hwf hm
    have hpc : ¬ st.pc < st.program.length := by omega
    rw [Interpreter.run, dif_neg hpc]
    exact ⟨_, st, rfl⟩
  | succ n ih =>
    intro st ms hn hwf hm
    have hpc : st.pc < st.program.length := by omega
    cases hbud : budgetReached ms st.steps with
    | true =>
      rw [Interpreter.run, dif_pos hpc, hbud]
      simp only [if_true]
      exact ⟨_, st, rfl⟩
    | false =>
      obtain ⟨m', hexec, hm'⟩ := execute_wf _ (hwf _ (List.getElem_mem hpc)) st.memory hm
      rw [Interpreter.run, dif_pos hpc, hbud]
      simp only [Bool.false_eq_true, if_false, hexec]
      exact ih ⟨st.program, m', st.pc + 1, st.steps + 1⟩ ms (by simp; omega)
        (by simpa using hwf) hm'

/-- One successful iteration of the run loop. -/
lemma run_step (st : Interpreter) (ms : Option Int) (h : st.pc < st.program.length)
    (hb : budgetReached ms st.steps = false) (m' : Memory)
    (he : execute st.memory (st.program.get ⟨st.pc, h⟩) = .ok m') :
    Interpreter.run st ms = Interpreter.run ⟨st.program, m', st.pc + 1, st.steps + 1⟩ ms := by
  rw [Interpreter.run, dif_pos h, hb]
  simp only [Bool.false_eq_true, if_false]
  rw [show st.program[st.pc] = st.program.get ⟨st.pc, h⟩ from rfl, he]

/-- The run loop's terminal state once the counter leaves the program. -/
lemma run_halt_now (st : Interpreter) (ms : Option Int)
    (h : ¬ st.pc < st.program.length) :
    Interpreter.run st ms = .ok (⟨st.steps, true⟩, st) := by
  rw [Interpreter.run, dif_neg h]

/-! ## Claim C1: READ_MEM indirection semantics -/

/-- C1: executing `READ_MEM` with operand fields `B`, `C`, `D` performs one
level of indirection — it stores `memory[memory[B] + C]` into `memory[D]`,
leaves every other cell unchanged, and does not advance the program counter
itself: the counter moves from 0 to 1 only through the run loop. -/
theorem claim_C1_read_mem_semantics (m : Memory) (hm : validMem m)
    (b c d : Int) (r : Nat) (hb : 0 ≤ b) (hc : 0 ≤ c) (hd : 0 ≤ d) :
    ∃ m', execute m ⟨READ_MEM_DEF, [("B", b), ("C", c), ("D", d)], r⟩ = .ok m' ∧
      m'.cells d = m.cells (m.cells b + c) ∧
      (∀ a, a ≠ d → m'.cells a = m.cells a) ∧
      ∃ st', Interpreter.run ⟨[⟨READ_MEM_DEF, [("B", b), ("C", c), ("D", d)], r⟩], m, 0, 0⟩
          none = .ok (⟨1, true⟩, st') ∧ st'.pc = 1 ∧ st'.memory = m' := by
  have hbase : (0 : Int) ≤ m.cells b + c := by have := (hm b).1; omega
  have hval := hm (m.cells b + c)
  have hexec : execute m ⟨READ_MEM_DEF, [("B", b), ("C", c), ("D", d)], r⟩ =
      .ok ⟨fun x => if x = d then Int.land (m.cells (m.cells b + c)) (WORD_MASK : Int)
        else m.cells x⟩ := by
    have h1 : execute m ⟨READ_MEM_DEF, [("B", b), ("C", c), ("D", d)], r⟩ =
        (m.read b >>= fun base => m.read (base + c) >>= fun value =>
          m.write d value) := rfl
    rw [h1, read_ok m b hb, except_bind_ok, read_ok m (m.cells b + c) hbase,
      except_bind_ok, write_ok m d _ hd]
  refine ⟨_, hexec, ?_, ?_, ?_⟩
  · simp only [if_pos rfl]
    exact land_mask_self _ hval.1 hval.2
  · intro a ha
    simp only [if_neg ha]
  · refine ⟨⟨[⟨READ_MEM_DEF, [("B", b), ("C", c), ("D", d)], r⟩],
      ⟨fun x => if x = d then Int.land (m.cells (m.cells b + c)) (WORD_MASK : Int)
        else m.cells x⟩, 1, 1⟩, ?_, rfl, rfl⟩
    rw [run_step ⟨[⟨READ_MEM_DEF, [("B", b), ("C", c), ("D", d)], r⟩], m, 0, 0⟩ none
      (by simp) rfl _ hexec]
    rw [run_halt_now _ none (by simp)]

/-- A concrete memory for the specification's indirection examples:
`memory[10] = 100`, `memory[103] = 42`, everything else 0 (the state the
writes `write 10 100; write 103 42` produce on a fresh memory). -/
def testMem : Memory :=
  ⟨fun a => if a = 10 then 100 else if a = 103 then 42 else 0⟩

lemma valid_testMem : validMem testMem := by
  intro a
  simp only [testMem]
  split_ifs <;> exact ⟨by decide, by decide⟩

/-- Witness for C1: the specification's example `READ_MEM(B=10, C=3, D=20)`
on `memory[10] = 100`, `memory[103] = 42` leaves `memory[20] = 42`. -/
theorem claim_C1_read_mem_semantics_witness :
    validMem testMem ∧ (0 : Int) ≤ 10 ∧ (0 : Int) ≤ 3 ∧ (0 : Int) ≤ 20 ∧
    ∃ m', execute testMem ⟨READ_MEM_DEF, [("B", 10), ("C", 3), ("D", 20)], 0⟩ = .ok m' ∧
      m'.cells 20 = 42 := by
  refine ⟨valid_testMem, by decide, by decide, by decide, ?_⟩
  obtain ⟨m', hexec, hcell, -, -⟩ :=
    claim_C1_read_mem_semantics testMem valid_testMem 10 3 20 0
      (by decide) (by decide) (by decide)
  refine ⟨m', hexec, ?_⟩
  rw [hcell]
  decide

/-! ## Claim C7: NOT_MEM complement semantics -/

/-- C7: executing `NOT_MEM` with operand fields `B`, `C`, `D` stores the
bitwise complement of `memory[memory[B] + C]`, masked to the 64-bit word
width, into `memory[D]`. -/
theorem claim_C7_not_mem_semantics (m : Memory) (hm : validMem m)
    (b c d : Int) (r : Nat) (hb : 0 ≤ b) (hc : 0 ≤ c) (hd : 0 ≤ d) :
    ∃ m', execute m ⟨NOT_MEM_DEF, [("B", b), ("C", c), ("D", d)], r⟩ = .ok m' ∧
      m'.cells d = Int.land (Int.not (m.cells (m.cells b + c))) (WORD_MASK : Int) ∧
      ∀ a, a ≠ d → m'.cells a = m.cells a := by
  have hbase : (0 : Int) ≤ m.cells b + c := by have := (hm b).1; omega
  have hexec : execute m ⟨NOT_MEM_DEF, [("B", b), ("C", c), ("D", d)], r⟩ =
      .ok ⟨fun x => if x = d then
          Int.land (Int.land (Int.not (m.cells (m.cells b + c))) (WORD_MASK : Int))
            (WORD_MASK : Int)
        else m.cells x⟩ := by
    have h1 : execute m ⟨NOT_MEM_DEF, [("B", b), ("C", c), ("D", d)], r⟩ =
        (m.read b >>= fun base => m.read (base + c) >>= fun value =>
          m.write d (Int.land (Int.not value) (WORD_MASK : Int))) := rfl
    rw [h1, read_ok m b hb, except_bind_ok, read_ok m (m.cells b + c) hbase,
      except_bind_ok, write_ok m d _ hd]
  refine ⟨_, hexec, ?_, ?_⟩
  · simp only [if_pos rfl]
    exact land_mask_idem _
  · intro a ha
    simp only [if_neg ha]

/-- Witness for C7: the specification's example `NOT_MEM(B=10, C=3, D=20)`
on `memory[10] = 100`, `memory[103] = 42` leaves
`memory[20] = (~42) & WORD_MASK`. -/
theorem claim_C7_not_mem_semantics_witness :
    validMem testMem ∧
    ∃ m', execute testMem ⟨NOT_MEM_DEF, [("B", 10), ("C", 3), ("D", 20)], 0⟩ = .ok m' ∧
      m'.cells 20 = Int.land (Int.not 42) (WORD_MASK : Int) := by
  refine ⟨valid_testMem, ?_⟩
  obtain ⟨m', hexec, hcell, -⟩ :=
    claim_C7_not_mem_semantics testMem valid_testMem 10 3 20 0
      (by decide) (by decide) (by decide)
  refine ⟨m', hexec, ?_⟩
  rw [hcell]
  rw [show testMem.cells (testMem.cells 10 + 3) = 42 from rfl]

/-! ## Claim C3: budget suspension and normal halting -/

/-- C3: running a program (a sequence of decoder-produced instructions) with
no budget, or with a budget at least the program length, executes every
instruction and reports `(steps = length, halted = true)`; running it with
`0 ≤ max_steps < length` stops early and reports
`(steps = max_steps, halted = false)`. -/
theorem claim_C3_budget_suspension :
    ∀ program : List MachineInstruction,
      (∀ mi ∈ program, ∃ w, decode_word w = .ok mi) →
      (∀ ms : Option Int, (ms = none ∨ ∃ k, ms = some k ∧ (program.length : Int) ≤ k) →
        ∃ st', (Interpreter.init program).run ms = .ok (⟨program.length, true⟩, st')) ∧
      (∀ k : Int, 0 ≤ k → k < (program.length : Int) →
        ∃ st', (Interpreter.init program).run (some k) = .ok (⟨k.toNat, false⟩, st')) := by
  intro program hdec
  have hwf : ∀ mi ∈ program, WellFormed mi := fun mi hmi => by
    obtain ⟨w, hw⟩ := hdec mi hmi
    exact decode_wellFormed w mi hw
  constructor
  · intro ms hms
    obtain ⟨st', hrun, -, -, -, -⟩ :=
      run_halts program.length (Interpreter.init program) ms rfl hwf validMem_init
        (by
          intro k hk
          rcases hms with h | ⟨k', hk', hle⟩
          · rw [h] at hk; cases hk
          · rw [hk'] at hk
            cases hk
            simpa [Interpreter.init] using hle)
    exact ⟨st', by simpa [Interpreter.init] using hrun⟩
  · intro k hk0 hk1
    exact run_budget_stops program.length (Interpreter.init program) k rfl hwf
      validMem_init (by simpa [Interpreter.init] using hk0)
      (by simpa [Interpreter.init] using hk1)

/-- A decoded `LOAD_CONST` instruction (the decoding of the raw word 17). -/
def sampleInstr : MachineInstruction := ⟨LOAD_CONST_DEF, [("B", 0), ("C", 0)], 17⟩

/-- A 5-instruction program of decoded instructions. -/
def sampleProgram5 : List MachineInstruction := List.replicate 5 sampleInstr

/-- Witness for C3: the 5-instruction program run with `max_steps = 3`
yields `(3, false)`; run with no budget it yields `(5, true)`. -/
theorem claim_C3_budget_suspension_witness :
    (∀ mi ∈ sampleProgram5, ∃ w, decode_word w = .ok mi) ∧
    (∃ st', (Interpreter.init sampleProgram5).run (some 3) = .ok (⟨3, false⟩, st')) ∧
    (∃ st', (Interpreter.init sampleProgram5).run none = .ok (⟨5, true⟩, st')) := by
  have hdec : ∀ mi ∈ sampleProgram5, ∃ w, decode_word w = .ok mi := by
    intro mi hmi
    rw [show sampleProgram5 = List.replicate 5 sampleInstr from rfl,
      List.mem_replicate] at hmi
    exact ⟨17, by rw [hmi.2]; rfl⟩
  refine ⟨hdec, ?_, ?_⟩
  · have h := (claim_C3_budget_suspension sampleProgram5 hdec).2 3 (by decide)
      (by rw [show sampleProgram5.length = 5 from rfl]; decide)
    simpa using h
  · have h := (claim_C3_budget_suspension sampleProgram5 hdec).1 none (Or.inl rfl)
    simpa [show sampleProgram5.length = 5 from rfl] using h

/-! ## Claim C9: decoded programs never raise InvalidAddressError -/

/-- C9: executing any program of decoder-produced instructions, from any
memory populated only through `Memory.write`, never raises — in particular
it never raises an InvalidAddressError: every address reaching
`Memory.read` / `Memory.write` (including the indirect `memory[B] + C`) is
non-negative, because extracted field values are non-negative and stored
cell values are masked into the non-negative 64-bit range. -/
theorem claim_C9_no_invalid_address :
    ∀ program : List MachineInstruction,
      (∀ mi ∈ program, ∃ w, decode_word w = .ok mi) →
      ∀ m : Memory, WriteReachable m → ∀ ms : Option Int,
        (∃ r st', Interpreter.run ⟨program, m, 0, 0⟩ ms = .ok (r, st')) ∧
        ∀ e : VMError, Interpreter.run ⟨program, m, 0, 0⟩ ms ≠ .error e := by
  intro program hdec m hreach ms
  have hwf : ∀ mi ∈ program, WellFormed mi := fun mi hmi => by
    obtain ⟨w, hw⟩ := hdec mi hmi
    exact decode_wellFormed w mi hw
  obtain ⟨r, st', hrun⟩ :=
    run_total program.length ⟨program, m, 0, 0⟩ ms rfl hwf
      (validMem_of_writeReachable m hreach)
  exact ⟨⟨r, st', hrun⟩, fun e he => by rw [hrun] at he; cases he⟩

/-- A decoded `NOT_MEM` instruction (the decoding of the raw word 24). -/
def sampleInstrNot : MachineInstruction := ⟨NOT_MEM_DEF, [("B", 0), ("C", 0), ("D", 0)], 24⟩

/-- Witness for C9: a decoded one-instruction program on a fresh memory. -/
theorem claim_C9_no_invalid_address_witness :
    (∀ mi ∈ [sampleInstrNot], ∃ w, decode_word w = .ok mi) ∧
    WriteReachable Memory.init ∧
    (∃ r st', Interpreter.run ⟨[sampleInstrNot], Memory.init, 0, 0⟩ none = .ok (r, st')) ∧
    ∀ e : VMError, Interpreter.run ⟨[sampleInstrNot], Memory.init, 0, 0⟩ none ≠ .error e := by
  have hdec : ∀ mi ∈ [sampleInstrNot], ∃ w, decode_word w = .ok mi := by
    intro mi hmi
    rw [List.mem_singleton] at hmi
    exact ⟨24, by rw [hmi]; rfl⟩
  obtain ⟨h1, h2⟩ :=
    claim_C9_no_invalid_address [sampleInstrNot] hdec Memory.init .init none
  exact ⟨hdec, .init, h1, h2⟩

/-! ## Claim C8: loader failure modes -/

/-- The low-5-bit opcode carried by the `i`-th 14-byte chunk of a blob. -/
def chunkOpcode (data : List Nat) (i : Nat) : Nat :=
  (fromBytesLE ((data.drop (INSTRUCTION_BYTES * i)).take INSTRUCTION_BYTES)) &&&
    ((1 <<< OPCODE_BITS) - 1)

lemma decode_error_inv (w op : Nat)
    (h : decode_word w = .error (.unknownOpcode op)) :
    INSTRUCTION_BY_OPCODE.lookup op = none ∧
      op = w &&& ((1 <<< OPCODE_BITS) - 1) := by
  simp only [decode_word] at h
  cases hL : INSTRUCTION_BY_OPCODE.lookup (w &&& ((1 <<< OPCODE_BITS) - 1)) with
  | none =>
    rw [hL] at h
    cases h
    exact ⟨hL, rfl⟩
  | some d => rw [hL] at h; cases h

lemma decode_ok_lookup (w : Nat) (mi : MachineInstruction)
    (h : decode_word w = .ok mi) :
    INSTRUCTION_BY_OPCODE.lookup (w &&& ((1 <<< OPCODE_BITS) - 1)) ≠ none := by
  intro hn
  simp only [decode_word] at h
  rw [hn] at h
  cases h

lemma loadChunks_nil : loadChunks [] = .ok [] := by
  rw [loadChunks]

lemma loadChunks_cons (b : Nat) (rest : List Nat) :
    loadChunks (b :: rest) =
      (match decode_word (fromBytesLE ((b :: rest).take INSTRUCTION_BYTES)) with
      | .error (.unknownOpcode op) => .error (.unknownOpcode op)
      | .ok mi =>
        match loadChunks ((b :: rest).drop INSTRUCTION_BYTES) with
        | .error e => .error e
        | .ok mis => .ok (mi :: mis)) := by
  rw [loadChunks]

/-- Any error out of the chunk loop is an unknown-opcode error for an
opcode that is not in the fixed table. -/
lemma loadChunks_error_inv : ∀ (n : Nat) (data : List Nat), data.length ≤ n →
    ∀ e, loadChunks data = .error e →
    ∃ op, INSTRUCTION_BY_OPCODE.lookup op = none ∧ e = .unknownOpcode op := by
  intro n
  induction n with
  | zero =>
    intro data hlen e he
    have hd : data = [] := by
      cases data with
      | nil => rfl
      | cons b rest => simp at hlen
    rw [hd, loadChunks_nil] at he
    cases he
  | succ n ih =>
    intro data hlen e he
    cases data with
    | nil =>
      rw [loadChunks_nil] at he
      cases he
    | cons b rest =>
      rw [loadChunks_cons] at he
      split at he
      · rename_i op heq
        cases he
        exact ⟨op, (decode_error_inv _ op heq).1, rfl⟩
      · rename_i mi heq
        split at he
        · rename_i e2 hrec
          cases he
          refine ih ((b :: rest).drop INSTRUCTION_BYTES) ?_ _ hrec
          have h14 : INSTRUCTION_BYTES = 14 := rfl
          simp only [List.length_drop, List.length_cons, h14]
          simp only [List.length_cons] at hlen
          omega
        · rename_i mis hrec
          cases he

/-- If the chunk loop succeeds, every chunk decodes. -/
lemma loadChunks_ok_all : ∀ (n : Nat) (data : List Nat), data.length ≤ n →
    ∀ mis, loadChunks data = .ok mis →
    ∀ i, INSTRUCTION_BYTES * i < data.length →
    ∃ mi, decode_word
      (fromBytesLE ((data.drop (INSTRUCTION_BYTES * i)).take INSTRUCTION_BYTES)) =
        .ok mi := by
  intro n
  induction n with
  | zero =>
    intro data hlen mis hok i hi
    omega
  | succ n ih =>
    intro data hlen mis hok i hi
    cases data with
    | nil => simp at hi
    | cons b rest =>
      rw [loadChunks_cons] at hok
      split at hok
      · cases hok
      · rename_i mi heq
        split at hok
        · cases hok
        · rename_i mis2 hrec
          cases i with
          | zero => exact ⟨mi, by simpa using heq⟩
          | succ j =>
            have hdrop : (b :: rest).drop (INSTRUCTION_BYTES * (j + 1)) =
                ((b :: rest).drop INSTRUCTION_BYTES).drop (INSTRUCTION_BYTES * j) := by
              rw [List.drop_drop]
              congr 1
              ring
            have h14 : INSTRUCTION_BYTES = 14 := rfl
            have hlen2 : ((b :: rest).drop INSTRUCTION_BYTES).length ≤ n := by
              simp only [List.length_drop, List.length_cons, h14]
              simp only [List.length_cons] at hlen
              omega
            have hi2 : INSTRUCTION_BYTES * j <
                ((b :: rest).drop INSTRUCTION_BYTES).length := by
              simp only [List.length_drop, List.length_cons, h14]
              simp only [List.length_cons, h14] at hi
              omega
            obtain ⟨mi2, hmi2⟩ := ih _ hlen2 mis2 hrec j hi2
            exact ⟨mi2, by rw [hdrop]; exact hmi2⟩

/-- C8: loading fails with MalformedBinaryError exactly when the blob's
length is not a multiple of 14; a well-sized blob in which some 14-byte
little-endian chunk carries a low-5-bit opcode outside the fixed set fails
with an UnknownOpcodeError (for an opcode outside the fixed set). -/
theorem claim_C8_load_errors :
    ∀ data : List Nat,
      (load_program data = .error .malformedBinary ↔
        data.length % INSTRUCTION_BYTES ≠ 0) ∧
      (data.length % INSTRUCTION_BYTES = 0 →
        (∃ i, INSTRUCTION_BYTES * i < data.length ∧
          INSTRUCTION_BY_OPCODE.lookup (chunkOpcode data i) = none) →
        ∃ op, INSTRUCTION_BY_OPCODE.lookup op = none ∧
          load_program data = .error (.unknownOpcode op)) := by
  intro data
  constructor
  · constructor
    · intro h
      by_contra hmod
      rw [load_program, if_neg (by omega)] at h
      obtain ⟨op, -, habs⟩ :=
        loadChunks_error_inv data.length data (le_refl _) _ h
      cases habs
    · intro hmod
      rw [load_program, if_pos hmod]
  · intro hmod ⟨i, hi, hbad⟩
    rw [load_program, if_neg (by omega)]
    cases hload : loadChunks data with
    | ok mis =>
      exfalso
      obtain ⟨mi, hmi⟩ := loadChunks_ok_all data.length data (le_refl _) mis hload i hi
      exact decode_ok_lookup _ mi hmi hbad
    | error e =>
      obtain ⟨op, hop, rfl⟩ :=
        loadChunks_error_inv data.length data (le_refl _) e hload
      exact ⟨op, hop, rfl⟩

/-- Witness for C8: a 15-byte blob is malformed; a 14-byte blob whose chunk
carries opcode 31 (outside the fixed set) fails with UnknownOpcodeError. -/
theorem claim_C8_load_errors_witness :
    load_program (List.replicate 15 0) = .error .malformedBinary ∧
    (∃ op, INSTRUCTION_BY_OPCODE.lookup op = none ∧
      load_program (31 :: List.replicate 13 0) = .error (.unknownOpcode op)) := by
  constructor
  · exact (claim_C8_load_errors (List.replicate 15 0)).1.mpr (by decide)
  · exact (claim_C8_load_errors (31 :: List.replicate 13 0)).2 (by decide)
      ⟨0, by decide, by decide⟩

end UVM
